import Mathlib

/-!
Verification of the Codevv backend core: a shallow embedding of the
workspace-lifecycle manager (`app/services/workspace.py`), the terminal
multiplexer (`app/services/terminal.py`), the realtime output poller
(`app/api/routes/ws_terminal.py`), and the dependency/knowledge graph
engine (`app/services/dependencies.py`, `app/api/routes/knowledge.py`),
with theorems settling the stated behavioural properties.

Database rows are modelled as explicit records; UUIDs as `String`;
Python dicts as insertion-ordered association lists with dict update
semantics; container-runtime and database failures as explicit fault
flags; exceptions as `Except`.  SQL float weights are never computed
with, only carried, so they are modelled opaquely as `Option Int`.
-/

/-! ### Common dictionary helpers (Python `dict` as ordered assoc list) -/

/-- Python dict assignment `m[k] = v`: replace the value at the first (unique)
occurrence of `k` in place, else append `(k, v)` at the end (insertion order). -/
def updOrApp {α : Type} (m : List (String × α)) (k : String) (v : α) :
    List (String × α) :=
  match m with
  | [] => [(k, v)]
  | (k', v') :: rest =>
    if k' = k then (k, v) :: rest else (k', v') :: updOrApp rest k v

/-- Python `m.get(k)` / `k in m`: lookup by key. -/
def alookup {α : Type} (m : List (String × α)) (k : String) : Option α :=
  match m with
  | [] => none
  | (k', v) :: rest => if k' = k then some v else alookup rest k

/-- Keys of a dict, in insertion order (Python `for k in m`). -/
def dkeys {α : Type} (m : List (String × α)) : List String := m.map (·.1)

/-! ### Workspace lifecycle (`app/services/workspace.py`) -/

/-- A `workspaces` row (`app/models/workspace.py`), as read and written by
the orchestrator; timestamps are irrelevant to the claims and omitted. -/
structure Workspace where
  id : String
  project_id : String
  user_id : String
  container_id : Option String
  port : Nat
  status : String
  scope : String
deriving DecidableEq

/-- Deterministic container name `f"codevv-ws-{id}"`. -/
def containerName (wsId : String) : String := "codevv-ws-" ++ wsId

/-- `_allocate_port` raises `RuntimeError("No available workspace ports")`;
the spec taxonomy calls this ResourceExhausted. -/
inductive AllocError
  | resourceExhausted
deriving DecidableEq

/-- The `for port in range(start, end + 1)` scan of `_allocate_port`:
return the first port of the `n` ports counting up from `p` that is not
in `used`, else fall through to the `RuntimeError`. -/
def scanPorts (used : List Nat) : Nat → Nat → Except AllocError Nat
  | _, 0 => .error .resourceExhausted
  | p, n + 1 => if used.contains p then scanPorts used (p + 1) n else .ok p

/-- `_allocate_port` (workspace.py lines 25-50).  `dbPorts` are the ports of
records with status in {starting, running}; `runtimePorts` is `some` of the
public ports Docker reports when the runtime query succeeds and `none` when
it raises (the `except Exception: pass` fallback to record-only accounting). -/
def allocate_port (dbPorts : List Nat) (runtimePorts : Option (List Nat))
    (portStart portEnd : Nat) : Except AllocError Nat :=
  let used := dbPorts ++ runtimePorts.getD []
  scanPorts used portStart (portEnd + 1 - portStart)

/-- Fault flags for the container-runtime calls made by `stop_workspace`;
aiodocker raises `DockerError`, which lines 148-149 catch and log. -/
structure StopFaults where
  getFails : Bool
  stopFails : Bool
  deleteFails : Bool
deriving DecidableEq

/-- `stop_workspace` raises `ValueError("Workspace not found")` when the
record is absent; nothing else escapes it. -/
inductive WsError
  | notFound
deriving DecidableEq

/-- `stop_workspace` (workspace.py lines 129-154) acting on the record (if
any) and on the set of container names present in the runtime.  The docker
get/stop/delete block runs only when `container_id` is set, and a
`DockerError` anywhere in it is swallowed; the record always ends
`status="stopped"` with `container_id` cleared. -/
def stop_workspace (rec : Option Workspace) (containers : List String)
    (f : StopFaults) : Except WsError (Workspace × List String) :=
  match rec with
  | none => .error .notFound
  | some w =>
    let containers' :=
      match w.container_id with
      | none => containers
      | some _ =>
        if containers.contains (containerName w.id)
            ∧ f.getFails = false ∧ f.stopFails = false ∧ f.deleteFails = false
        then containers.erase (containerName w.id)
        else containers
    .ok ({ w with status := "stopped", container_id := none }, containers')

/-- Fault flags for the runtime calls of `create_workspace`.  Network
attach failures (lines 99-103) are caught and logged inside the `try`
block and change nothing observable, so they carry no flag. -/
structure CreateFaults where
  createFails : Bool
  startFails : Bool
  showFails : Bool
  cleanupGetFails : Bool
  deleteFails : Bool
deriving DecidableEq

/-- Observable outcome of `create_workspace` (workspace.py lines 53-126):
the container names present afterwards, the final record status, and
either normal return or the propagated exception (named by its step). -/
structure CreateOutcome where
  containers : List String
  status : String
  result : Except String Unit

/-- The cleanup block of the `except` handler (lines 117-122): get the
container by name and force-delete it, swallowing any cleanup failure. -/
def cleanupContainer (cs : List String) (name : String) (f : CreateFaults) :
    List String :=
  if cs.contains name ∧ f.cleanupGetFails = false ∧ f.deleteFails = false
  then cs.erase name
  else cs

/-- The docker phase of `create_workspace`: create-or-replace the named
container, start it, (best-effort network attach,) inspect it; on any
failure in the `try` block mark the record stopped, run the cleanup block
and re-raise the original error; on success the record becomes running. -/
def create_workspace_run (containers0 : List String) (wsId : String)
    (f : CreateFaults) : CreateOutcome :=
  let name := containerName wsId
  if f.createFails then
    { containers := cleanupContainer containers0 name f
      status := "stopped", result := .error "create_or_replace" }
  else
    let cs1 := name :: containers0.erase name
    if f.startFails then
      { containers := cleanupContainer cs1 name f
        status := "stopped", result := .error "start" }
    else if f.showFails then
      { containers := cleanupContainer cs1 name f
        status := "stopped", result := .error "show" }
    else
      { containers := cs1, status := "running", result := .ok () }

/-! ### Terminal multiplexer (`app/services/terminal.py`) -/

/-- A `terminal_sessions` row (`app/models/terminal_session.py`). -/
structure TerminalSession where
  id : String
  workspace_id : String
  tmux_session : String
  owner_id : String
  mode : String
deriving DecidableEq

/-- One call to the `_exec_in_container` primitive: the container name and
the argv executed inside it. -/
structure ExecCall where
  container : String
  cmd : List String
deriving DecidableEq

/-- Errors raised by `set_mode`: `ValueError` when the session is absent,
`PermissionError` when the caller does not own it. -/
inductive TermError
  | notFound
  | permissionDenied
deriving DecidableEq

/-- `send_input` (terminal.py lines 101-113): readonly mode plus a
non-owner caller returns without touching the container; every other
combination execs `tmux send-keys` against the named session.  The result
is the exec call issued, or `none` for the silent drop. -/
def send_input (session : TerminalSession) (workspace : Workspace)
    (data : String) (user_id : String) : Option ExecCall :=
  if session.mode = "readonly" ∧ session.owner_id ≠ user_id then none
  else some ⟨containerName workspace.id,
    ["tmux", "send-keys", "-t", session.tmux_session, data]⟩

/-- `set_mode` (terminal.py lines 85-98) over the session store: absent
session raises, non-owner raises, otherwise the mode string is stored
unchanged — there is no validation of `mode` against any enum. -/
def set_mode (sessions : List TerminalSession)
    (session_id user_id mode : String) :
    Except TermError (List TerminalSession × TerminalSession) :=
  match sessions.find? (fun s => s.id = session_id) with
  | none => .error .notFound
  | some s =>
    if s.owner_id ≠ user_id then .error .permissionDenied
    else
      let s' := { s with mode := mode }
      .ok (sessions.map (fun t => if t.id = session_id then s' else t), s')

/-! ### Realtime output poller (`app/api/routes/ws_terminal.py` lines 78-102) -/

/-- What one iteration of the polling loop observes: the session or
workspace row has disappeared (`break`), `read_output` raised (`break`),
or a snapshot was captured. -/
inductive PollEvent
  | recordGone
  | readFailed
  | captured (s : String)
deriving DecidableEq

/-- The loop body threaded over the observation trace: publish the
captured snapshot exactly when it differs from `last_output`, which then
becomes the new `last_output`; stop at the first terminating event. -/
def pollerLoop : List PollEvent → String → List String
  | [], _ => []
  | .recordGone :: _, _ => []
  | .readFailed :: _, _ => []
  | .captured s :: rest, last =>
    if s ≠ last then s :: pollerLoop rest s else pollerLoop rest last

/-- `output_poller`: `last_output` starts as the empty string. -/
def output_poller (events : List PollEvent) : List String :=
  pollerLoop events ""

/-- The snapshots captured before the loop terminates, in poll order. -/
def capturedPolls : List PollEvent → List String
  | [] => []
  | .recordGone :: _ => []
  | .readFailed :: _ => []
  | .captured s :: rest => s :: capturedPolls rest

/-! ### Dependency graph builder (`app/services/dependencies.py` lines 8-84) -/

/-- A canvas component row joined with its owning canvas id
(`CanvasComponent` in `app/models/canvas.py`), restricted to the fields
the builder reads. -/
structure CanvasComponent where
  id : String
  canvas_id : String
  name : String
  component_type : String
  tech_stack : Option String
deriving DecidableEq

/-- A `knowledge_entities` row, restricted to the fields the core reads. -/
structure KEntity where
  id : String
  name : String
  entity_type : String
deriving DecidableEq

/-- A `knowledge_relations` row, restricted to the fields the core reads;
the float `weight` is only carried, never computed with. -/
structure KRelation where
  source_id : String
  target_id : String
  relation_type : String
  weight : Option Int
deriving DecidableEq

/-- A node dict of the built graph. -/
structure GNode where
  id : String
  name : String
  component_type : String
  tech_stack : Option String
  canvas_id : String
deriving DecidableEq

/-- An edge dict of the built graph. -/
structure GEdge where
  source_id : String
  target_id : String
  relation_type : String
  weight : Option Int
deriving DecidableEq

/-- Python `str.lower()` restricted to ASCII (names in this repo are
ASCII), written over the character list so that it evaluates. -/
def strLower (s : String) : String := String.mk (s.data.map Char.toLower)

/-- `comp_name_map = {n["name"].lower(): n["id"] for n in nodes}`: a dict
comprehension, so a later node with the same lowercased name overwrites an
earlier one. -/
def compNameMap (nodes : List GNode) : List (String × String) :=
  nodes.foldl (fun m n => updOrApp m (strLower n.name) n.id) []

/-- The `entity_name_to_comp` loop: an entity is mapped iff its lowercased
name is a key of `comp_name_map`. -/
def entityNameToComp (entities : List KEntity) (nodes : List GNode) :
    List (String × String) :=
  entities.foldl
    (fun m e =>
      match alookup (compNameMap nodes) (strLower e.name) with
      | some cid => updOrApp m e.id cid
      | none => m)
    []

/-- `build_dependency_graph` (lines 8-84).  Inputs are the project's canvas
components (the canvas join), its "component"-typed filter applied to all
project entities, and all project relations; the relation query keeps only
relations whose two endpoints are matched entity ids (and runs at all only
when the map is non-empty), and the edge loop then maps both endpoints
through `entity_name_to_comp`.  The summary stats are the two lengths plus
a max-depth heuristic no claim refers to, so they are not carried here. -/
def build_dependency_graph (comps : List CanvasComponent)
    (entities : List KEntity) (relations : List KRelation) :
    List GNode × List GEdge :=
  let nodes : List GNode := comps.map (fun c =>
    { id := c.id, name := c.name, component_type := c.component_type,
      tech_stack := c.tech_stack, canvas_id := c.canvas_id })
  let componentEntities := entities.filter (fun e => e.entity_type = "component")
  let entMap := entityNameToComp componentEntities nodes
  let relsQ :=
    if entMap.isEmpty then []
    else relations.filter (fun r =>
      (dkeys entMap).contains r.source_id && (dkeys entMap).contains r.target_id)
  let edges : List GEdge := relsQ.filterMap (fun r =>
    match alookup entMap r.source_id, alookup entMap r.target_id with
    | some sc, some tc =>
      some { source_id := sc, target_id := tc,
             relation_type := r.relation_type, weight := r.weight }
    | _, _ => none)
  (nodes, edges)

/-! ### Cycle detection (`app/services/dependencies.py` lines 111-142)

Three-colour DFS.  Python raises `KeyError` when the cycle-name list
comprehension hits an id absent from `name_map`, and `ValueError` if
`path.index` missed, so the embedding returns `Except String`.  The
recursion is structural on a fuel argument always called with more fuel
than the vertex count, the only bound the white-visit discipline allows. -/

/-- `adj[nid] = []` initialisation over the node list. -/
def adjInit (nodes : List GNode) : List (String × List String) :=
  nodes.foldl (fun m n => updOrApp m n.id []) []

/-- `adj.setdefault(src, []).append(tgt)` over the edge list. -/
def adjAddEdges (m0 : List (String × List String)) (edges : List GEdge) :
    List (String × List String) :=
  edges.foldl
    (fun m e =>
      updOrApp m e.source_id ((alookup m e.source_id).getD [] ++ [e.target_id]))
    m0

/-- The adjacency dict of `detect_cycles`. -/
def buildAdj (nodes : List GNode) (edges : List GEdge) :
    List (String × List String) :=
  adjAddEdges (adjInit nodes) edges

/-- `name_map[nid] = n["name"]` over the node list. -/
def buildNameMap (nodes : List GNode) : List (String × String) :=
  nodes.foldl (fun m n => updOrApp m n.id n.name) []

/-- The mutable state of the DFS: the colour dict (`none` models a key
absent from `color`), the recursion path and the cycles accumulated. -/
structure DfsSt where
  color : String → Option Nat
  path : List String
  cycles : List (List String)

/-- `color[u] = c`. -/
def setColor (c : String → Option Nat) (u : String) (n : Nat) :
    String → Option Nat :=
  fun v => if v = u then some n else c v

/-- `path[path.index(v):]`: the suffix of `path` from the first occurrence
of `v`; a miss is Python's `ValueError`. -/
def sufFromE : List String → String → Except String (List String)
  | [], v => .error ("ValueError: " ++ v)
  | a :: rest, v => if a = v then .ok (a :: rest) else sufFromE rest v

/-- `name_map[k]` with Python `KeyError` on a missing key. -/
def lookupE (m : List (String × String)) (k : String) : Except String String :=
  match alookup m k with
  | some v => .ok v
  | none => .error ("KeyError: " ++ k)

/-- `[name_map[n] for n in path[idx:]]` where `idx = path.index(v)`. -/
def extractCycle (nameMap : List (String × String)) (path : List String)
    (v : String) : Except String (List String) := do
  let suf ← sufFromE path v
  suf.mapM (lookupE nameMap)

/-- The `for v in adj.get(u, [])` loop of `dfs`, parameterised by the
recursive visit so that `dfsVisit` stays structural in its fuel: a gray
successor records the closed walk, a white one is visited, anything else
is skipped. -/
def dfsSuccs (nameMap : List (String × String))
    (visit : String → DfsSt → Except String DfsSt) :
    List String → DfsSt → Except String DfsSt
  | [], st => .ok st
  | v :: vs, st =>
    if st.color v = some 1 then
      match extractCycle nameMap st.path v with
      | .error e => .error e
      | .ok cyc =>
        dfsSuccs nameMap visit vs { st with cycles := st.cycles ++ [cyc] }
    else if st.color v = some 0 then
      match visit v st with
      | .error e => .error e
      | .ok st' => dfsSuccs nameMap visit vs st'
    else dfsSuccs nameMap visit vs st

/-- `dfs(u)` (lines 126-137): colour `u` gray, push it, walk its
successor list, pop and blacken. -/
def dfsVisit (adj : List (String × List String))
    (nameMap : List (String × String)) :
    Nat → String → DfsSt → Except String DfsSt
  | 0, _, _ => .error "fuel exhausted"
  | fuel + 1, u, st =>
    let st1 : DfsSt :=
      { color := setColor st.color u 1, path := st.path ++ [u],
        cycles := st.cycles }
    match dfsSuccs nameMap (fun v s => dfsVisit adj nameMap fuel v s)
        ((alookup adj u).getD []) st1 with
    | .error e => .error e
    | .ok st2 =>
      .ok { color := setColor st2.color u 2, path := st2.path.dropLast,
            cycles := st2.cycles }

/-- The root loop `for nid in adj: if color[nid] == WHITE: dfs(nid)`. -/
def dfsRoots (adj : List (String × List String))
    (nameMap : List (String × String)) (fuel : Nat) :
    List String → DfsSt → Except String DfsSt
  | [], st => .ok st
  | k :: ks, st =>
    if st.color k = some 0 then
      match dfsVisit adj nameMap fuel k st with
      | .error e => .error e
      | .ok st' => dfsRoots adj nameMap fuel ks st'
    else dfsRoots adj nameMap fuel ks st

/-- `detect_cycles(nodes, edges)`. -/
def detect_cycles (nodes : List GNode) (edges : List GEdge) :
    Except String (List (List String)) :=
  let adj := buildAdj nodes edges
  let nameMap := buildNameMap nodes
  let color0 : String → Option Nat :=
    fun v => if (dkeys adj).contains v then some 0 else none
  match dfsRoots adj nameMap (adj.length + 1) (dkeys adj)
      { color := color0, path := [], cycles := [] } with
  | .error e => .error e
  | .ok st => .ok st.cycles

/-- The `/cycles` route (`app/api/routes/dependencies.py` lines 46-55):
the cycle list plus `has_cycles = len(cycles) > 0`. -/
def get_cycles (nodes : List GNode) (edges : List GEdge) :
    Except String (List (List String) × Bool) :=
  (detect_cycles nodes edges).map (fun cs => (cs, decide (cs.length > 0)))

/-- One directed edge step of the built graph, for stating acyclicity. -/
def EdgeStep (edges : List GEdge) (a b : String) : Prop :=
  ∃ e ∈ edges, e.source_id = a ∧ e.target_id = b

/-- A directed graph is acyclic when no vertex reaches itself through a
non-empty chain of edges. -/
def Acyclic (edges : List GEdge) : Prop :=
  ∀ v, ¬ Relation.TransGen (EdgeStep edges) v v

/-! ### Impact analysis (`app/services/dependencies.py` lines 145-179) -/

/-- The reverse adjacency `rev_adj.setdefault(target, []).append(source)`. -/
def revAdj (edges : List GEdge) : List (String × List String) :=
  edges.foldl
    (fun m e =>
      updOrApp m e.target_id ((alookup m e.target_id).getD [] ++ [e.source_id]))
    []

/-- The `while queue` BFS over reverse edges; `visited` is kept in
insertion order (Python uses an unordered set, and no result the claims
touch depends on its order).  Fuel exceeds every reachable iteration
count, and exhaustion returns the set collected so far. -/
def bfsLoop (radj : List (String × List String)) :
    Nat → List String → List String → List String
  | 0, _, visited => visited
  | _ + 1, [], visited => visited
  | fuel + 1, cur :: queue, visited =>
    if visited.contains cur then bfsLoop radj fuel queue visited
    else
      bfsLoop radj fuel
        (queue ++ ((alookup radj cur).getD []).filter
          (fun nb => ¬ (visited ++ [cur]).contains nb))
        (visited ++ [cur])

/-- The result dict of `calculate_impact`. -/
structure ImpactResult where
  node_id : String
  node_name : String
  direct_dependents : Nat
  transitive_dependents : Nat
  affected_nodes : List GNode
deriving DecidableEq

/-- `calculate_impact(node_id, nodes, edges)`: BFS from the target over
reverse edges, then drop the target itself and resolve surviving ids
through the node list, silently skipping ids it does not contain. -/
def calculate_impact (node_id : String) (nodes : List GNode)
    (edges : List GEdge) : ImpactResult :=
  let radj := revAdj edges
  let direct := ((alookup radj node_id).getD []).dedup
  let visited :=
    bfsLoop radj (edges.length + nodes.length + 2) [node_id] []
  let visited' := visited.erase node_id
  let nameMap := nodes.map (fun n => (n.id, n))
  { node_id := node_id
    node_name := (match alookup nameMap node_id with
      | some n => n.name
      | none => "")
    direct_dependents := direct.length
    transitive_dependents := visited'.length
    affected_nodes := visited'.filterMap (fun v => alookup nameMap v) }

/-! ### Bounded traversal (`app/api/routes/knowledge.py` lines 179-247)

The recursive CTE iterates on full rows `(id, name, entity_type, depth)`
deduplicated by `UNION`; every row produced at iteration `d` carries depth
`d`, so the row set is exactly the union over `d ≤ max_depth` of the
per-depth frontier sets, with no deduplication of ids across depths. -/

/-- A node of the `GraphResponse`. -/
structure TravNode where
  id : String
  name : String
  entity_type : String
  depth : Nat
deriving DecidableEq

/-- An edge of the `GraphResponse`. -/
structure TravEdge where
  source : String
  target : String
  relation_type : String
  weight : Option Int
deriving DecidableEq

/-- The `GraphResponse`. -/
structure TravResult where
  nodes : List TravNode
  edges : List TravEdge
deriving DecidableEq

/-- The optional `relation_type IN (...)` filter; Python's
`if req.relation_types:` treats an empty list like no filter. -/
def relOK (filt : List String) (r : KRelation) : Bool :=
  filt.isEmpty || filt.contains r.relation_type

/-- The join condition and `CASE` of the CTE: a relation incident on `u`
yields the opposite endpoint, with `source_id` tested first. -/
def caseNbr (r : KRelation) (u : String) : Option String :=
  if r.source_id = u then some r.target_id
  else if r.target_id = u then some r.source_id
  else none

/-- Whether an id exists in `knowledge_entities`. -/
def entExists (ents : List KEntity) (v : String) : Bool :=
  ents.any (fun e => e.id = v)

/-- One CTE iteration: all opposite endpoints of filtered relations
incident on the frontier that resolve to an existing entity, as a set. -/
def levelStep (ents : List KEntity) (rels : List KRelation)
    (filt : List String) (frontier : List String) : List String :=
  (frontier.flatMap (fun u =>
    rels.filterMap (fun r =>
      if relOK filt r then
        match caseNbr r u with
        | some v => if entExists ents v then some v else none
        | none => none
      else none))).dedup

/-- The depth-`d` frontier: depth 0 is the start row (if the start id is a
project entity), and rows of depth `d` expand while `d < max_depth`, so
`levels` is simply iterated up to the requested depth. -/
def levels (ents : List KEntity) (rels : List KRelation) (filt : List String)
    (start : String) : Nat → List String
  | 0 => if entExists ents start then [start] else []
  | d + 1 => levelStep ents rels filt (levels ents rels filt start d)

/-- The distinct `(id, depth)` rows of the CTE. -/
def travRows (ents : List KEntity) (rels : List KRelation) (filt : List String)
    (start : String) (maxDepth : Nat) : List (String × Nat) :=
  (List.range (maxDepth + 1)).flatMap
    (fun d => (levels ents rels filt start d).map (fun v => (v, d)))

/-- `traverse_graph`: the row set rendered as `GraphNode`s (every row id is
an existing entity by construction, and its name and type come from it)
plus all project relations both of whose endpoints are discovered ids. -/
def traverse_graph (ents : List KEntity) (rels : List KRelation)
    (start : String) (maxDepth : Nat) (filt : List String) : TravResult :=
  let rows := travRows ents rels filt start maxDepth
  let nodeIds := rows.map (·.1)
  let nodes := rows.filterMap (fun p =>
    (ents.find? (fun e => e.id = p.1)).map (fun e =>
      { id := p.1, name := e.name, entity_type := e.entity_type,
        depth := p.2 }))
  let edges := (rels.filter (fun r =>
      nodeIds.contains r.source_id && nodeIds.contains r.target_id)).map
    (fun r =>
      { source := r.source_id, target := r.target_id,
        relation_type := r.relation_type, weight := r.weight })
  { nodes := nodes, edges := edges }

/-- Specification-side reachability: `Reach ents rels filt start v d` holds
when some walk of exactly `d` undirected (CASE-oriented) filtered hops
through existing entities leads from the start row to `v`. -/
inductive Reach (ents : List KEntity) (rels : List KRelation)
    (filt : List String) (start : String) : String → Nat → Prop
  | base : entExists ents start = true → Reach ents rels filt start start 0
  | step {u v : String} {d : Nat} :
      Reach ents rels filt start u d →
      (∃ r ∈ rels, relOK filt r = true ∧ caseNbr r u = some v) →
      entExists ents v = true →
      Reach ents rels filt start v (d + 1)

/-! ### Invariants of the cycle-detection DFS -/

/-- One adjacency-dict step: `b ∈ adj.get(a, [])`. -/
def AdjRel (adj : List (String × List String)) (a b : String) : Prop :=
  b ∈ (alookup adj a).getD []

/-- The number of white keys, the DFS termination measure. -/
def Wcount (keysL : List String) (col : String → Option Nat) : Nat :=
  keysL.countP (fun k => decide (col k = some 0))

/-- A vertex is gray exactly while it sits on the recursion path. -/
def GrayInv (st : DfsSt) : Prop :=
  ∀ v, st.color v = some 1 ↔ v ∈ st.path

/-- Coloured vertices all come from the adjacency dict's key list. -/
def DomInv (keysL : List String) (col : String → Option Nat) : Prop :=
  ∀ v, col v ≠ none → v ∈ keysL

/-! ## Theorems -/

/-! ### C1: port allocation -/

/-- The ascending scan returns the first port passing the used-check. -/
theorem scanPorts_ok (used : List Nat) :
    ∀ (n p q : Nat), scanPorts used p n = .ok q →
      used.contains q = false ∧ p ≤ q ∧ q < p + n ∧
      ∀ r, p ≤ r → r < q → used.contains r = true := by
  intro n
  induction n with
  | zero => intro p q h; simp [scanPorts] at h
  | succ n ih =>
    intro p q h
    by_cases hc : used.contains p = true
    · rw [scanPorts, if_pos hc] at h
      obtain ⟨h1, h2, h3, h4⟩ := ih (p + 1) q h
      refine ⟨h1, by omega, by omega, ?_⟩
      intro r hr1 hr2
      rcases Nat.eq_or_lt_of_le hr1 with rfl | hlt
      · exact hc
      · exact h4 r (by omega) hr2
    · rw [scanPorts, if_neg hc] at h
      cases h
      refine ⟨by simpa using hc, Nat.le_refl _, by omega, ?_⟩
      intro r h1 h2
      omega

/-- When every port of the scanned range is used, the scan raises. -/
theorem scanPorts_exhausted (used : List Nat) :
    ∀ (n p : Nat), (∀ r, p ≤ r → r < p + n → used.contains r = true) →
      scanPorts used p n = .error .resourceExhausted := by
  intro n
  induction n with
  | zero => intro p _; rfl
  | succ n ih =>
    intro p hall
    have hp : used.contains p = true := hall p (Nat.le_refl p) (by omega)
    rw [scanPorts, if_pos hp]
    exact ih (p + 1) (fun r h1 h2 => hall r (by omega) (by omega))

/-- C1: `_allocate_port` scans the configured inclusive port range in
ascending order and returns the first port not held by a starting/running
record and (when the runtime query succeeded) not reported published by
the runtime; it never returns a record-held port, and when every port of
the range is used it fails with the ResourceExhausted error. -/
theorem allocate_port_spec (dbPorts : List Nat) (runtimePorts : Option (List Nat))
    (ps pe : Nat) :
    (∀ q, allocate_port dbPorts runtimePorts ps pe = .ok q →
        q ∉ dbPorts ∧ (∀ l, runtimePorts = some l → q ∉ l) ∧
        ps ≤ q ∧ q ≤ pe ∧
        ∀ r, ps ≤ r → r < q → r ∈ dbPorts ++ runtimePorts.getD []) ∧
    ((∀ r, ps ≤ r → r ≤ pe → r ∈ dbPorts ++ runtimePorts.getD []) →
      allocate_port dbPorts runtimePorts ps pe = .error .resourceExhausted) := by
  constructor
  · intro q h
    obtain ⟨h1, h2, h3, h4⟩ := scanPorts_ok _ _ _ _ h
    have hq : q ∉ dbPorts ++ runtimePorts.getD [] := by simpa using h1
    refine ⟨fun hm => hq (List.mem_append_left _ hm), ?_, h2, by omega, ?_⟩
    · intro l hl hm
      exact hq (List.mem_append_right _ (by rw [hl]; exact hm))
    · intro r hr1 hr2
      have := h4 r hr1 hr2
      simpa using this
  · intro hall
    apply scanPorts_exhausted
    intro r h1 h2
    have hr : r ≤ pe := by omega
    simpa using hall r h1 hr

/-- Witness for C1: with records holding 8000 and the runtime publishing
8001, the first free port of 8000-8002 is 8002; with all three ports held
the allocator reports exhaustion. -/
theorem allocate_port_spec_witness :
    (8002 ∉ ([8000] : List Nat) ∧ 8000 ≤ 8002 ∧ 8002 ≤ 8002) ∧
    allocate_port [8000, 8001, 8002] none 8000 8002 = .error .resourceExhausted := by
  constructor
  · have h := (allocate_port_spec [8000] (some [8001]) 8000 8002).1 8002 rfl
    exact ⟨h.1, h.2.2.1, h.2.2.2.1⟩
  · apply (allocate_port_spec [8000, 8001, 8002] none 8000 8002).2
    intro r h1 h2
    have : r = 8000 ∨ r = 8001 ∨ r = 8002 := by omega
    rcases this with rfl | rfl | rfl <;> simp

/-! ### C3 and C10: terminal input routing and mode handling -/

/-- C3: `send_input` on a session in "readonly" mode called by anyone but
the owner issues no exec call against the container and raises no error. -/
theorem send_input_readonly_noop (s : TerminalSession) (w : Workspace)
    (data uid : String) (hmode : s.mode = "readonly") (hown : s.owner_id ≠ uid) :
    send_input s w data uid = none := by
  simp [send_input, hmode, hown]

/-- Witness for C3: a readonly session owned by alice silently drops input
sent by bob. -/
theorem send_input_readonly_noop_witness :
    send_input ⟨"s1", "w1", "term-1", "alice", "readonly"⟩
      ⟨"w1", "p1", "alice", none, 8100, "running", "project"⟩ "ls" "bob" = none :=
  send_input_readonly_noop _ _ _ _ rfl (by decide)

/-- C10: `set_mode` stores any mode string unvalidated for the owner, and
`send_input` forwards input to the container for every mode other than
exactly "readonly", whoever the caller is. -/
theorem set_mode_unvalidated_and_forwarding :
    (∀ (sessions : List TerminalSession) (sid uid mode : String)
        (s : TerminalSession),
        sessions.find? (fun t => t.id = sid) = some s → s.owner_id = uid →
        ∃ r, set_mode sessions sid uid mode = .ok r ∧ r.2.mode = mode) ∧
    (∀ (s : TerminalSession) (w : Workspace) (data uid : String),
        s.mode ≠ "readonly" →
        send_input s w data uid =
          some ⟨containerName w.id,
            ["tmux", "send-keys", "-t", s.tmux_session, data]⟩) := by
  constructor
  · intro sessions sid uid mode s hfind hown
    have heq : set_mode sessions sid uid mode =
        .ok (sessions.map (fun t => if t.id = sid then { s with mode := mode } else t),
          { s with mode := mode }) := by
      unfold set_mode
      rw [hfind]
      simp [hown]
    exact ⟨_, heq, rfl⟩
  · intro s w data uid hmode
    simp [send_input, hmode]

/-- Witness for C10: the owner stores the misspelled mode "readonyl"
verbatim, and under that mode a non-owner's input is forwarded. -/
theorem set_mode_unvalidated_and_forwarding_witness :
    (∃ r, set_mode [⟨"s1", "w1", "term-1", "alice", "collaborative"⟩]
        "s1" "alice" "readonyl" = .ok r ∧ r.2.mode = "readonyl") ∧
    send_input ⟨"s1", "w1", "term-1", "alice", "readonyl"⟩
      ⟨"w1", "p1", "alice", none, 8100, "running", "project"⟩ "ls" "bob" =
      some ⟨containerName "w1", ["tmux", "send-keys", "-t", "term-1", "ls"]⟩ := by
  constructor
  · exact set_mode_unvalidated_and_forwarding.1 _ "s1" "alice" "readonyl" _ rfl rfl
  · exact set_mode_unvalidated_and_forwarding.2 _ _ "ls" "bob" (by decide)

/-! ### C4: stop idempotence -/

/-- C4: `stop_workspace` is idempotent in effect — with a record present it
returns normally with status "stopped" under any runtime faults, a second
call on the result also returns normally with status "stopped", and the
NotFound error is raised exactly when no record exists. -/
theorem stop_workspace_idempotent :
    (∀ (w : Workspace) (cs : List String) (f1 f2 : StopFaults),
      ∃ w1 cs1, stop_workspace (some w) cs f1 = .ok (w1, cs1) ∧
        w1.status = "stopped" ∧
        ∃ w2 cs2, stop_workspace (some w1) cs1 f2 = .ok (w2, cs2) ∧
          w2.status = "stopped") ∧
    (∀ (cs : List String) (f : StopFaults),
      stop_workspace (none : Option Workspace) cs f = .error .notFound) := by
  constructor
  · intro w cs f1 f2
    exact ⟨_, _, rfl, rfl, _, _, rfl, rfl⟩
  · intro cs f
    rfl

/-! ### C2: failed create cleanup -/

/-- C2 counterexample: the start step fails after the container was
created and the cleanup's force-delete itself fails; the original error is
propagated but the container survives the failed create. -/
theorem create_workspace_orphan_counterexample :
    (create_workspace_run [] "w1" ⟨false, true, false, false, true⟩).result
        = .error "start" ∧
    (create_workspace_run [] "w1" ⟨false, true, false, false, true⟩).containers.contains
        (containerName "w1") = true := ⟨rfl, rfl⟩

/-- C2 (amended): on any failure after container creation the record is
marked stopped and the original error is propagated, and the force-delete
is attempted best-effort — the container is guaranteed gone exactly when
the cleanup's own get and delete calls succeed. -/
theorem create_workspace_cleanup (cs0 : List String) (wsId : String)
    (f : CreateFaults) (hnd : cs0.Nodup) (hc : f.createFails = false)
    (hfail : f.startFails = true ∨ f.showFails = true) :
    (create_workspace_run cs0 wsId f).status = "stopped" ∧
    (f.startFails = true → (create_workspace_run cs0 wsId f).result = .error "start") ∧
    (f.startFails = false → (create_workspace_run cs0 wsId f).result = .error "show") ∧
    (f.cleanupGetFails = false → f.deleteFails = false →
      containerName wsId ∉ (create_workspace_run cs0 wsId f).containers) := by
  have hclean : ∀ hget : f.cleanupGetFails = false, ∀ hdel : f.deleteFails = false,
      containerName wsId ∉
        cleanupContainer (containerName wsId :: cs0.erase (containerName wsId))
          (containerName wsId) f := by
    intro hget hdel
    have hcond : (containerName wsId :: cs0.erase (containerName wsId)).contains
        (containerName wsId) = true ∧ f.cleanupGetFails = false ∧ f.deleteFails = false := by
      refine ⟨by simp, hget, hdel⟩
    rw [cleanupContainer, if_pos hcond, List.erase_cons_head]
    intro hmem
    exact ((hnd.mem_erase_iff).mp hmem).1 rfl
  by_cases hst : f.startFails = true
  · have ho : create_workspace_run cs0 wsId f =
        { containers := cleanupContainer
            (containerName wsId :: cs0.erase (containerName wsId))
            (containerName wsId) f,
          status := "stopped", result := .error "start" } := by
      unfold create_workspace_run
      simp [hc, hst]
    rw [ho]
    refine ⟨rfl, fun _ => rfl, fun h => ?_, fun a b => hclean a b⟩
    rw [hst] at h
    cases h
  · have hst' : f.startFails = false := by
      cases hf : f.startFails
      · rfl
      · exact absurd hf hst
    have hsh : f.showFails = true := by
      rcases hfail with h | h
      · exact absurd h hst
      · exact h
    have ho : create_workspace_run cs0 wsId f =
        { containers := cleanupContainer
            (containerName wsId :: cs0.erase (containerName wsId))
            (containerName wsId) f,
          status := "stopped", result := .error "show" } := by
      unfold create_workspace_run
      simp [hc, hst', hsh]
    rw [ho]
    refine ⟨rfl, fun h => ?_, fun _ => rfl, fun a b => hclean a b⟩
    rw [hst'] at h
    cases h

/-- Witness for C2 (amended): start fails, cleanup succeeds — the record is
stopped, the error propagates, and no container remains. -/
theorem create_workspace_cleanup_witness :
    (create_workspace_run ["codevv-ws-old"] "w2" ⟨false, true, false, false, false⟩).status
        = "stopped" ∧
    (create_workspace_run ["codevv-ws-old"] "w2" ⟨false, true, false, false, false⟩).result
        = .error "start" ∧
    containerName "w2" ∉
      (create_workspace_run ["codevv-ws-old"] "w2" ⟨false, true, false, false, false⟩).containers := by
  have h := create_workspace_cleanup ["codevv-ws-old"] "w2"
    ⟨false, true, false, false, false⟩ (by simp) rfl (Or.inl rfl)
  exact ⟨h.1, h.2.1 rfl, h.2.2.2 rfl rfl⟩

/-! ### C5: dangling endpoints -/

/-- C5: the code bug — on a malformed input whose cycle runs through a
dangling id, `detect_cycles` hits Python's `KeyError` while naming the
cycle (`name_map[n]`, dependencies.py line 132) instead of returning
normally, while `calculate_impact` on the same malformed input and an
unknown target returns normally with the unknown ids simply absent. -/
theorem detect_cycles_dangling_keyerror :
    detect_cycles [⟨"A", "A", "service", none, "cv"⟩]
      [⟨"A", "X", "dep", none⟩, ⟨"X", "A", "dep", none⟩] = .error "KeyError: X" ∧
    (calculate_impact "Z" [⟨"A", "A", "service", none, "cv"⟩]
        [⟨"A", "X", "dep", none⟩, ⟨"X", "A", "dep", none⟩]).affected_nodes = [] :=
  ⟨rfl, rfl⟩

/-! ### C8 counterexample, C9 counterexample, C6 counterexample -/

/-- C8 counterexample: two consecutive polls both capture the empty string
(the poller's initial `last_output` value); the stretch publishes zero
messages, not exactly one. -/
theorem output_poller_initial_stretch_counterexample :
    output_poller [.captured "", .captured ""] = [] ∧
    (output_poller [.captured "", .captured ""]).length ≠ 1 := ⟨rfl, by decide⟩

/-- C9 counterexample: two structural nodes share the case-insensitive
name "api"; the entity "Api" is mapped to the later node (id "2"), not the
first ("1"), so the produced edge starts at "2". -/
theorem build_graph_first_match_counterexample :
    (build_dependency_graph
        [⟨"1", "cv", "API", "service", none⟩, ⟨"2", "cv", "api", "service", none⟩,
          ⟨"3", "cv", "B", "service", none⟩]
        [⟨"e1", "Api", "component"⟩, ⟨"e2", "b", "component"⟩]
        [⟨"e1", "e2", "uses", some 1⟩]).2
      = [⟨"2", "3", "uses", some 1⟩] ∧ ("2" : String) ≠ "1" := ⟨by decide, by decide⟩

/-- C6 counterexample: on entities A, B with one relation A-B,
`traverse(A, max_depth=2)` returns A both at depth 0 and at depth 2 — the
returned node ids are not pairwise distinct, refuting "each node appearing
once". -/
theorem traverse_node_multiplicity_counterexample :
    ¬ (((traverse_graph [⟨"A", "A", "component"⟩, ⟨"B", "B", "component"⟩]
        [⟨"A", "B", "uses", some 1⟩] "A" 2 []).nodes.map (fun n => n.id)).Nodup) := by
  decide

/-! ### C8 (amended): change detection of the output poller -/

/-- The poller's publish stream is the captured poll stream destuttered
against the running `last_output`, which heads the result. -/
theorem pollerLoop_destutter :
    ∀ (evs : List PollEvent) (last : String),
      List.destutter' (fun a b : String => a ≠ b) last (capturedPolls evs) =
        last :: pollerLoop evs last := by
  intro evs
  induction evs with
  | nil => intro last; rfl
  | cons e rest ih =>
    cases e with
    | recordGone => intro last; rfl
    | readFailed => intro last; rfl
    | captured s =>
      intro last
      have hc : capturedPolls (PollEvent.captured s :: rest) = s :: capturedPolls rest := rfl
      have hp : pollerLoop (PollEvent.captured s :: rest) last =
          if s ≠ last then s :: pollerLoop rest s else pollerLoop rest last := rfl
      rw [hc, hp, List.destutter'_cons]
      by_cases h : s = last
      · rw [if_neg (by simp [h]), if_neg (by simp [h])]
        exact ih last
      · have h1 : last ≠ s := fun hh => h hh.symm
        rw [if_pos h1, if_pos h, ih s]

/-- C8 (amended): the published sequence equals the captured poll sequence
with consecutive duplicates collapsed and an initial stretch equal to the
empty string (the initial `last_output`) dropped — each stretch of
identical consecutive polls publishes at most one message, exactly one
unless it is such an initial stretch, and no published message ever equals
the immediately preceding one. -/
theorem output_poller_change_detection :
    (∀ events : List PollEvent,
      List.destutter' (fun a b : String => a ≠ b) "" (capturedPolls events) =
        "" :: output_poller events ∧
      List.Chain' (fun a b : String => a ≠ b) ("" :: output_poller events)) ∧
    output_poller [.captured "a", .captured "a"] = ["a"] := by
  constructor
  · intro events
    have h : List.destutter' (fun a b : String => a ≠ b) "" (capturedPolls events) =
        "" :: output_poller events := pollerLoop_destutter events ""
    refine ⟨h, ?_⟩
    rw [← h]
    exact List.destutter'_is_chain' _ _ ""
  · rfl

/-! ### C9 (amended): builder name matching and edge closure -/

/-- Characterisation of Python dict assignment under lookup. -/
theorem alookup_updOrApp {α : Type} (m : List (String × α)) (k : String) (v : α)
    (k' : String) :
    alookup (updOrApp m k v) k' = if k = k' then some v else alookup m k' := by
  induction m with
  | nil => rfl
  | cons hd rest ih =>
    obtain ⟨k0, v0⟩ := hd
    by_cases h0 : k0 = k
    · subst h0
      by_cases h1 : k0 = k'
      · subst h1
        simp [updOrApp, alookup]
      · simp [updOrApp, alookup, h1]
    · by_cases h1 : k0 = k'
      · subst h1
        have hneq : ¬ (k = k0) := fun h => h0 h.symm
        simp [updOrApp, alookup, h0, hneq]
      · simp [updOrApp, alookup, h0, h1, ih]

/-- `comp_name_map` over one more node. -/
theorem compNameMap_concat (ns : List GNode) (n : GNode) :
    compNameMap (ns ++ [n]) = updOrApp (compNameMap ns) (strLower n.name) n.id := by
  simp [compNameMap, List.foldl_append]

/-- The dict comprehension keyed on lowered names resolves each key to the
LAST node bearing it. -/
theorem compNameMap_lookup (ns : List GNode) (key : String) :
    alookup (compNameMap ns) key =
      ((ns.filter (fun n => strLower n.name = key)).getLast?).map GNode.id := by
  induction ns using List.reverseRecOn with
  | nil => rfl
  | append_singleton ns n ih =>
    rw [compNameMap_concat, alookup_updOrApp]
    by_cases h : strLower n.name = key
    · rw [if_pos h, List.filter_append]
      simp [h]
    · rw [if_neg h, ih, List.filter_append]
      simp [h]

/-- `entity_name_to_comp` over one more entity. -/
theorem entityNameToComp_concat (es : List KEntity) (e : KEntity) (ns : List GNode) :
    entityNameToComp (es ++ [e]) ns =
      (match alookup (compNameMap ns) (strLower e.name) with
        | some cid => updOrApp (entityNameToComp es ns) e.id cid
        | none => entityNameToComp es ns) := by
  simp [entityNameToComp, List.foldl_append]

/-- Ids of unprocessed entities are absent from `entity_name_to_comp`. -/
theorem entityNameToComp_lookup_none (ns : List GNode) :
    ∀ (es : List KEntity) (i : String), i ∉ es.map KEntity.id →
      alookup (entityNameToComp es ns) i = none := by
  intro es
  induction es using List.reverseRecOn with
  | nil => intro i _; rfl
  | append_singleton es e ih =>
    intro i hi
    rw [List.map_append] at hi
    have hi1 : i ∉ es.map KEntity.id := fun h => hi (List.mem_append_left _ h)
    have hi2 : i ≠ e.id := by
      intro h
      exact hi (List.mem_append_right _ (by simp [h]))
    rw [entityNameToComp_concat]
    cases hm : alookup (compNameMap ns) (strLower e.name) with
    | none => exact ih i hi1
    | some cid =>
      show alookup (updOrApp (entityNameToComp es ns) e.id cid) i = none
      rw [alookup_updOrApp, if_neg (fun h => hi2 h.symm)]
      exact ih i hi1

/-- With distinct entity ids, each processed entity's binding is exactly
the `comp_name_map` hit on its lowered name. -/
theorem entityNameToComp_lookup (ns : List GNode) :
    ∀ (es : List KEntity), (es.map KEntity.id).Nodup →
      ∀ e ∈ es, alookup (entityNameToComp es ns) e.id =
        alookup (compNameMap ns) (strLower e.name) := by
  intro es
  induction es using List.reverseRecOn with
  | nil => intro _ e he; cases he
  | append_singleton es e0 ih =>
    intro hnd e he
    rw [List.map_append] at hnd
    rw [List.nodup_append] at hnd
    obtain ⟨hnd1, _, hdisj⟩ := hnd
    rcases List.mem_append.mp he with he' | he0
    · have hne : e.id ≠ e0.id := by
        intro h
        exact hdisj (List.mem_map_of_mem _ he') (by simp [h])
      rw [entityNameToComp_concat]
      cases hm : alookup (compNameMap ns) (strLower e0.name) with
      | none => exact ih hnd1 e he'
      | some cid =>
        show alookup (updOrApp (entityNameToComp es ns) e0.id cid) e.id =
          alookup (compNameMap ns) (strLower e.name)
        rw [alookup_updOrApp, if_neg (fun h => hne h.symm)]
        exact ih hnd1 e he'
    · have he0' : e = e0 := by simpa using he0
      subst he0'
      have hnotin : e.id ∉ es.map KEntity.id := by
        intro h
        exact hdisj h (by simp)
      rw [entityNameToComp_concat]
      cases hm : alookup (compNameMap ns) (strLower e.name) with
      | none => exact entityNameToComp_lookup_none ns es e.id hnotin
      | some cid =>
        show alookup (updOrApp (entityNameToComp es ns) e.id cid) e.id = some cid
        rw [alookup_updOrApp, if_pos rfl]

/-- Values of `comp_name_map` are node ids. -/
theorem compNameMap_values (ns : List GNode) (k v : String)
    (h : alookup (compNameMap ns) k = some v) : v ∈ ns.map GNode.id := by
  rw [compNameMap_lookup] at h
  obtain ⟨n, hn, hv⟩ := Option.map_eq_some'.mp h
  have hmem : n ∈ ns.filter (fun n => strLower n.name = k) := by
    obtain ⟨hne, heq⟩ := List.mem_getLast?_eq_getLast (Option.mem_def.mpr hn)
    rw [heq]
    exact List.getLast_mem hne
  subst hv
  exact List.mem_map_of_mem _ (List.mem_of_mem_filter hmem)

/-- Values of `entity_name_to_comp` are node ids. -/
theorem entMap_values (ns : List GNode) :
    ∀ (es : List KEntity) (i c : String),
      alookup (entityNameToComp es ns) i = some c → c ∈ ns.map GNode.id := by
  intro es
  induction es using List.reverseRecOn with
  | nil => intro i c h; cases h
  | append_singleton es e ih =>
    intro i c h
    rw [entityNameToComp_concat] at h
    cases hm : alookup (compNameMap ns) (strLower e.name) with
    | none =>
      rw [hm] at h
      exact ih i c h
    | some cid =>
      rw [hm] at h
      have h' : alookup (updOrApp (entityNameToComp es ns) e.id cid) i = some c := h
      rw [alookup_updOrApp] at h'
      by_cases hi : e.id = i
      · rw [if_pos hi] at h'
        cases h'
        exact compNameMap_values ns _ _ hm
      · rw [if_neg hi] at h'
        exact ih i c h'

/-- Edges built through the entity map land inside the node id set. -/
theorem filterMap_edges_closed (entMap : List (String × String))
    (rels : List KRelation) (ns : List GNode)
    (hval : ∀ i c, alookup entMap i = some c → c ∈ ns.map GNode.id) :
    ∀ ed ∈ rels.filterMap (fun r =>
        match alookup entMap r.source_id, alookup entMap r.target_id with
        | some sc, some tc =>
          some { source_id := sc, target_id := tc,
                 relation_type := r.relation_type, weight := r.weight }
        | _, _ => (none : Option GEdge)),
      ed.source_id ∈ ns.map GNode.id ∧ ed.target_id ∈ ns.map GNode.id := by
  intro ed hed
  obtain ⟨r, _, hr⟩ := List.mem_filterMap.mp hed
  cases hs : alookup entMap r.source_id with
  | none => rw [hs] at hr; cases hr
  | some sc =>
    cases ht : alookup entMap r.target_id with
    | none => rw [hs, ht] at hr; cases hr
    | some tc =>
      rw [hs, ht] at hr
      cases hr
      exact ⟨hval _ _ hs, hval _ _ ht⟩

/-- C9 (amended): every "component"-typed entity is matched to a node by
case-insensitive exact name equality with the LAST matching node of the
node list winning (the dict comprehension overwrites earlier same-named
nodes); unmatched entities contribute no edges, and every returned edge
connects two nodes of the returned node set. -/
theorem build_graph_mapping_and_closure (comps : List CanvasComponent)
    (entities : List KEntity) (relations : List KRelation)
    (hnd : (entities.map KEntity.id).Nodup) :
    (∀ e ∈ entities.filter (fun x => x.entity_type = "component"),
      alookup
          (entityNameToComp (entities.filter (fun x => x.entity_type = "component"))
            (build_dependency_graph comps entities relations).1)
          e.id =
        (((build_dependency_graph comps entities relations).1.filter
            (fun n => strLower n.name = strLower e.name)).getLast?).map GNode.id) ∧
    (∀ ed ∈ (build_dependency_graph comps entities relations).2,
      ed.source_id ∈ (build_dependency_graph comps entities relations).1.map GNode.id ∧
      ed.target_id ∈ (build_dependency_graph comps entities relations).1.map GNode.id) := by
  constructor
  · intro e he
    have hnd' : ((entities.filter (fun x => x.entity_type = "component")).map
        KEntity.id).Nodup :=
      hnd.sublist (List.Sublist.map _ (List.filter_sublist _))
    rw [entityNameToComp_lookup _ _ hnd' e he, compNameMap_lookup]
  · exact filterMap_edges_closed _ _ _
      (entMap_values (build_dependency_graph comps entities relations).1
        (entities.filter (fun x => x.entity_type = "component")))

/-- Witness for C9 (amended) at the duplicate-name input: the produced edge's
endpoints "2" and "3" are both returned node ids. -/
theorem build_graph_mapping_and_closure_witness :
    "2" ∈ (build_dependency_graph
        [⟨"1", "cv", "API", "service", none⟩, ⟨"2", "cv", "api", "service", none⟩,
          ⟨"3", "cv", "B", "service", none⟩]
        [⟨"e1", "Api", "component"⟩, ⟨"e2", "b", "component"⟩]
        [⟨"e1", "e2", "uses", some 1⟩]).1.map GNode.id ∧
    "3" ∈ (build_dependency_graph
        [⟨"1", "cv", "API", "service", none⟩, ⟨"2", "cv", "api", "service", none⟩,
          ⟨"3", "cv", "B", "service", none⟩]
        [⟨"e1", "Api", "component"⟩, ⟨"e2", "b", "component"⟩]
        [⟨"e1", "e2", "uses", some 1⟩]).1.map GNode.id :=
  (build_graph_mapping_and_closure
    [⟨"1", "cv", "API", "service", none⟩, ⟨"2", "cv", "api", "service", none⟩,
      ⟨"3", "cv", "B", "service", none⟩]
    [⟨"e1", "Api", "component"⟩, ⟨"e2", "b", "component"⟩]
    [⟨"e1", "e2", "uses", some 1⟩] (by decide)).2
    ⟨"2", "3", "uses", some 1⟩ (by decide)

/-! ### C6 (amended): traversal characterisation -/

/-- Every reached id is an existing entity. -/
theorem reach_entExists {ents : List KEntity} {rels : List KRelation}
    {filt : List String} {start v : String} {d : Nat}
    (h : Reach ents rels filt start v d) : entExists ents v = true := by
  cases h with
  | base hb => exact hb
  | step _ _ hex => exact hex

/-- Membership in one CTE iteration. -/
theorem mem_levelStep (ents : List KEntity) (rels : List KRelation)
    (filt : List String) (L : List String) (v : String) :
    v ∈ levelStep ents rels filt L ↔
      ∃ u ∈ L, ∃ r ∈ rels, relOK filt r = true ∧ caseNbr r u = some v ∧
        entExists ents v = true := by
  unfold levelStep
  rw [List.mem_dedup, List.mem_flatMap]
  constructor
  · rintro ⟨u, hu, hv⟩
    obtain ⟨r, hr, hg⟩ := List.mem_filterMap.mp hv
    by_cases hok : relOK filt r = true
    · rw [if_pos hok] at hg
      cases hnbr : caseNbr r u with
      | none => rw [hnbr] at hg; cases hg
      | some w =>
        rw [hnbr] at hg
        have hg' : (if entExists ents w = true then some w else none) = some v := hg
        by_cases hex : entExists ents w = true
        · rw [if_pos hex] at hg'
          cases hg'
          exact ⟨u, hu, r, hr, hok, hnbr, hex⟩
        · rw [if_neg hex] at hg'; cases hg'
    · rw [if_neg hok] at hg; cases hg
  · rintro ⟨u, hu, r, hr, hok, hnbr, hex⟩
    refine ⟨u, hu, List.mem_filterMap.mpr ⟨r, hr, ?_⟩⟩
    rw [if_pos hok, hnbr]
    show (if entExists ents v = true then some v else none) = some v
    rw [if_pos hex]

/-- The depth-`d` frontier is exactly the set of endpoints of length-`d`
filtered undirected walks from the start row. -/
theorem mem_levels (ents : List KEntity) (rels : List KRelation)
    (filt : List String) (start : String) :
    ∀ (d : Nat) (v : String),
      v ∈ levels ents rels filt start d ↔ Reach ents rels filt start v d := by
  intro d
  induction d with
  | zero =>
    intro v
    constructor
    · intro hv
      by_cases h : entExists ents start = true
      · rw [levels, if_pos h] at hv
        have : v = start := by simpa using hv
        subst this
        exact .base h
      · rw [levels, if_neg h] at hv
        cases hv
    · intro hr
      cases hr with
      | base hb => rw [levels, if_pos hb]; simp
  | succ d ih =>
    intro v
    have hl : levels ents rels filt start (d + 1) =
        levelStep ents rels filt (levels ents rels filt start d) := rfl
    rw [hl, mem_levelStep]
    constructor
    · rintro ⟨u, hu, r, hr, hok, hnbr, hex⟩
      exact .step ((ih u).mp hu) ⟨r, hr, hok, hnbr⟩ hex
    · intro hr
      cases hr with
      | step hu hrel hex =>
        obtain ⟨r, hr, hok, hnbr⟩ := hrel
        exact ⟨_, (ih _).mpr hu, r, hr, hok, hnbr, hex⟩

/-- Membership among the distinct CTE rows. -/
theorem mem_travRows (ents : List KEntity) (rels : List KRelation)
    (filt : List String) (start : String) (maxD : Nat) (v : String) (d : Nat) :
    (v, d) ∈ travRows ents rels filt start maxD ↔
      d ≤ maxD ∧ Reach ents rels filt start v d := by
  unfold travRows
  rw [List.mem_flatMap]
  constructor
  · rintro ⟨d', hd', hm⟩
    obtain ⟨w, hw, heq⟩ := List.mem_map.mp hm
    have h1 : w = v := congrArg Prod.fst heq
    have h2 : d' = d := congrArg Prod.snd heq
    subst h1
    subst h2
    have hlt := List.mem_range.mp hd'
    exact ⟨by omega, (mem_levels ents rels filt start d' w).mp hw⟩
  · rintro ⟨hd, hr⟩
    exact ⟨d, List.mem_range.mpr (by omega),
      List.mem_map.mpr ⟨v, (mem_levels ents rels filt start d v).mpr hr, rfl⟩⟩

/-- C6 (amended): the returned nodes are exactly the `(id, depth)` pairs with
some filtered undirected walk of that exact length (at most `max_depth`) from
the start — a node may thus appear at several depths, not only the depth at
which it is first reached; every returned edge is a project relation both of
whose endpoints are reachable within the bound; and on the star graph the
response is exactly the center at depth 0 and its five neighbours at depth 1. -/
theorem traverse_characterization :
    (∀ (ents : List KEntity) (rels : List KRelation) (start : String)
        (maxD : Nat) (filt : List String),
      (∀ n : TravNode, n ∈ (traverse_graph ents rels start maxD filt).nodes →
        n.depth ≤ maxD ∧ Reach ents rels filt start n.id n.depth) ∧
      (∀ v d, d ≤ maxD → Reach ents rels filt start v d →
        ∃ n ∈ (traverse_graph ents rels start maxD filt).nodes,
          n.id = v ∧ n.depth = d) ∧
      (∀ te ∈ (traverse_graph ents rels start maxD filt).edges,
        ∃ r ∈ rels,
          te = { source := r.source_id, target := r.target_id,
                 relation_type := r.relation_type, weight := r.weight } ∧
          (∃ d ≤ maxD, Reach ents rels filt start r.source_id d) ∧
          (∃ d ≤ maxD, Reach ents rels filt start r.target_id d))) ∧
    (traverse_graph
        [⟨"C", "C", "component"⟩, ⟨"N1", "N1", "component"⟩, ⟨"N2", "N2", "component"⟩,
          ⟨"N3", "N3", "component"⟩, ⟨"N4", "N4", "component"⟩, ⟨"N5", "N5", "component"⟩]
        [⟨"C", "N1", "uses", none⟩, ⟨"C", "N2", "uses", none⟩, ⟨"C", "N3", "uses", none⟩,
          ⟨"C", "N4", "uses", none⟩, ⟨"C", "N5", "uses", none⟩] "C" 1 []).nodes =
      [⟨"C", "C", "component", 0⟩, ⟨"N1", "N1", "component", 1⟩,
        ⟨"N2", "N2", "component", 1⟩, ⟨"N3", "N3", "component", 1⟩,
        ⟨"N4", "N4", "component", 1⟩, ⟨"N5", "N5", "component", 1⟩] := by
  constructor
  · intro ents rels start maxD filt
    refine ⟨?_, ?_, ?_⟩
    · intro n hn
      obtain ⟨p, hp, hsome⟩ := List.mem_filterMap.mp hn
      obtain ⟨e, _, heq⟩ := Option.map_eq_some'.mp hsome
      obtain ⟨hd, hr⟩ := (mem_travRows ents rels filt start maxD p.1 p.2).mp hp
      subst heq
      exact ⟨hd, hr⟩
    · intro v d hd hr
      have hrow : (v, d) ∈ travRows ents rels filt start maxD :=
        (mem_travRows ents rels filt start maxD v d).mpr ⟨hd, hr⟩
      have hex : entExists ents v = true := reach_entExists hr
      have hfind : (ents.find? (fun e => e.id = v)).isSome := by
        rw [List.find?_isSome]
        obtain ⟨e, he, hev⟩ := List.any_eq_true.mp hex
        exact ⟨e, he, hev⟩
      obtain ⟨e, hfe⟩ := Option.isSome_iff_exists.mp hfind
      refine ⟨{ id := v, name := e.name, entity_type := e.entity_type, depth := d },
        List.mem_filterMap.mpr ⟨(v, d), hrow, ?_⟩, rfl, rfl⟩
      rw [hfe]
      rfl
    · intro te hte
      obtain ⟨r, hrf, heq⟩ := List.mem_map.mp hte
      obtain ⟨hr, hq⟩ := List.mem_filter.mp hrf
      rw [Bool.and_eq_true] at hq
      obtain ⟨hqs, hqt⟩ := hq
      have hs : r.source_id ∈ (travRows ents rels filt start maxD).map (·.1) := by
        simpa using hqs
      have ht : r.target_id ∈ (travRows ents rels filt start maxD).map (·.1) := by
        simpa using hqt
      obtain ⟨ps, hps, hpse⟩ := List.mem_map.mp hs
      obtain ⟨pt, hpt, hpte⟩ := List.mem_map.mp ht
      obtain ⟨hds, hrs⟩ := (mem_travRows ents rels filt start maxD ps.1 ps.2).mp hps
      obtain ⟨hdt, hrt⟩ := (mem_travRows ents rels filt start maxD pt.1 pt.2).mp hpt
      rw [hpse] at hrs
      rw [hpte] at hrt
      exact ⟨r, hr, heq.symm, ⟨ps.2, hds, hrs⟩, ⟨pt.2, hdt, hrt⟩⟩
  · rfl

/-- Witness for C6 (amended): with entities A, B and one relation A-B, row
(A, 2) of `traverse(A, max_depth=2)` certifies a two-hop walk back to A. -/
theorem traverse_characterization_witness :
    (2 : Nat) ≤ 2 ∧
    Reach [⟨"A", "A", "component"⟩, ⟨"B", "B", "component"⟩]
      [⟨"A", "B", "uses", some 1⟩] [] "A" "A" 2 :=
  (mem_travRows [⟨"A", "A", "component"⟩, ⟨"B", "B", "component"⟩]
    [⟨"A", "B", "uses", some 1⟩] [] "A" 2 "A" 2).mp (by decide)

/-! ### C7: cycle detection — measure and soundness lemmas -/

/-- Flipping one satisfied element strictly drops a `countP`. -/
theorem countP_lt_flip {l : List String} {p q : String → Bool} {u : String}
    (hu : u ∈ l) (hpu : p u = true) (hqu : q u = false)
    (hmono : ∀ v, q v = true → p v = true) :
    l.countP q < l.countP p := by
  induction l with
  | nil => cases hu
  | cons a t ih =>
    rw [List.countP_cons, List.countP_cons]
    have hle : t.countP q ≤ t.countP p :=
      List.countP_mono_left (fun v _ hv => hmono v hv)
    have hif : (if q a then 1 else 0) ≤ (if p a then 1 else 0) := by
      by_cases hqa : q a = true
      · rw [if_pos hqa, if_pos (hmono a hqa)]
      · rw [if_neg hqa]
        exact Nat.zero_le _
    rcases List.mem_cons.mp hu with rfl | hut
    · rw [hpu, hqu]
      have h1 : (if (true : Bool) = true then 1 else 0) = 1 := rfl
      have h2 : (if (false : Bool) = true then 1 else 0) = 0 := rfl
      rw [h1, h2]
      omega
    · have := ih hut
      omega

/-- Recolouring a white key away from white strictly drops the measure. -/
theorem wcount_setColor_lt (keysL : List String) (col : String → Option Nat)
    (u : String) (c : Nat) (hc : ¬ c = 0) (hu : u ∈ keysL)
    (hw : col u = some 0) :
    Wcount keysL (setColor col u c) < Wcount keysL col := by
  apply countP_lt_flip hu
  · simp [hw]
  · simp [setColor, hc]
  · intro v hv
    by_cases h : v = u
    · subst h
      simp [setColor, hc] at hv
    · simp only [setColor, if_neg h] at hv
      exact hv

/-- Pointwise white containment is measure-monotone. -/
theorem wcount_mono (keysL : List String) (col1 col2 : String → Option Nat)
    (h : ∀ v, col1 v = some 0 → col2 v = some 0) :
    Wcount keysL col1 ≤ Wcount keysL col2 :=
  List.countP_mono_left (fun v _ hv => by
    simp only [decide_eq_true_eq] at hv ⊢
    exact h v hv)

/-- Following a chain from any member to its last element. -/
theorem chain_to_last {r : String → String → Prop} :
    ∀ (l : List String) (v u : String), List.Chain' r l → v ∈ l →
      l.getLast? = some u → Relation.ReflTransGen r v u := by
  intro l
  induction l with
  | nil => intro v u _ hv _; cases hv
  | cons a t ih =>
    intro v u hchain hv hlast
    cases t with
    | nil =>
      have hva : v = a := by simpa using hv
      have hau : a = u := by simpa using hlast
      subst hva
      subst hau
      exact Relation.ReflTransGen.refl
    | cons b t' =>
      have hchain' : List.Chain' r (b :: t') := hchain.tail
      have hrab : r a b := (List.chain'_cons.mp hchain).1
      have hlast' : (b :: t').getLast? = some u := by
        rwa [List.getLast?_cons_cons] at hlast
      rcases List.mem_cons.mp hv with rfl | hvt
      · exact Relation.ReflTransGen.head hrab
          (ih b u hchain' (List.mem_cons_self b t') hlast')
      · exact ih v u hchain' hvt hlast'

/-- The node-initialisation phase leaves every adjacency list empty. -/
theorem adjInit_get (ns : List GNode) :
    ∀ (m : List (String × List String)),
      (∀ a, (alookup m a).getD [] = []) →
      ∀ a, (alookup (ns.foldl (fun m n => updOrApp m n.id []) m) a).getD [] = [] := by
  induction ns with
  | nil => intro m hm a; exact hm a
  | cons n t ih =>
    intro m hm a
    refine ih _ ?_ a
    intro a'
    rw [alookup_updOrApp]
    by_cases h : n.id = a'
    · rw [if_pos h]
      rfl
    · rw [if_neg h]
      exact hm a'

/-- `adj` starts with all-empty successor lists. -/
theorem adjInit_empty (ns : List GNode) (a : String) :
    (alookup (adjInit ns) a).getD [] = [] :=
  adjInit_get ns [] (fun _ => rfl) a

/-- Every successor recorded by the edge phase comes from an edge. -/
theorem adjAddEdges_sub :
    ∀ (es : List GEdge) (m : List (String × List String)) (a b : String),
      b ∈ (alookup (adjAddEdges m es) a).getD [] →
      b ∈ (alookup m a).getD [] ∨ ∃ e ∈ es, e.source_id = a ∧ e.target_id = b := by
  intro es
  induction es with
  | nil => intro m a b h; exact Or.inl h
  | cons e t ih =>
    intro m a b h
    have hstep : adjAddEdges m (e :: t) =
        adjAddEdges (updOrApp m e.source_id
          ((alookup m e.source_id).getD [] ++ [e.target_id])) t := rfl
    rw [hstep] at h
    rcases ih _ a b h with hm | hex
    · rw [alookup_updOrApp] at hm
      by_cases ha : e.source_id = a
      · rw [if_pos ha] at hm
        have hm' : b ∈ (alookup m e.source_id).getD [] ++ [e.target_id] := hm
        rcases List.mem_append.mp hm' with h1 | h2
        · left
          rw [← ha]
          exact h1
        · right
          have hb : b = e.target_id := by simpa using h2
          exact ⟨e, List.mem_cons_self _ _, ha, hb.symm⟩
      · rw [if_neg ha] at hm
        left
        exact hm
    · obtain ⟨e', he', hs, ht⟩ := hex
      exact Or.inr ⟨e', List.mem_cons_of_mem _ he', hs, ht⟩

/-- An adjacency step of the built dict is an edge of the input graph. -/
theorem adjRel_edgeStep (nodes : List GNode) (edges : List GEdge) (a b : String)
    (h : AdjRel (buildAdj nodes edges) a b) : EdgeStep edges a b := by
  have h' : b ∈ (alookup (adjAddEdges (adjInit nodes) edges) a).getD [] := h
  rcases adjAddEdges_sub edges (adjInit nodes) a b h' with hm | hex
  · rw [adjInit_empty] at hm
    cases hm
  · obtain ⟨e, he, hs, ht⟩ := hex
    exact ⟨e, he, hs, ht⟩

/-- Under acyclicity, the successor loop never meets a gray vertex: it
returns normally, records no cycle, and leaves path and grays unchanged
while only consuming whiteness. -/
theorem dfsSuccs_spec
    (adj : List (String × List String)) (nameMap : List (String × String))
    (keysL : List String) (edges : List GEdge)
    (hA : Acyclic edges)
    (hsub : ∀ a b, AdjRel adj a b → EdgeStep edges a b)
    (visit : String → DfsSt → Except String DfsSt)
    (fuelB : Nat)
    (hvisit : ∀ (w : String) (stw : DfsSt),
      stw.color w = some 0 → DomInv keysL stw.color →
      List.Chain' (AdjRel adj) (stw.path ++ [w]) → GrayInv stw →
      Wcount keysL stw.color ≤ fuelB →
      ∃ st', visit w stw = .ok st' ∧ st'.cycles = stw.cycles ∧
        st'.path = stw.path ∧
        (∀ v, st'.color v = some 1 ↔ stw.color v = some 1) ∧
        (∀ v, st'.color v = some 0 → stw.color v = some 0) ∧
        DomInv keysL st'.color ∧
        Wcount keysL st'.color < Wcount keysL stw.color) :
    ∀ (vs : List String) (u : String) (st : DfsSt),
      (∀ v ∈ vs, AdjRel adj u v) →
      st.path.getLast? = some u →
      List.Chain' (AdjRel adj) st.path →
      GrayInv st → DomInv keysL st.color →
      Wcount keysL st.color ≤ fuelB →
      ∃ st', dfsSuccs nameMap visit vs st = .ok st' ∧
        st'.cycles = st.cycles ∧ st'.path = st.path ∧
        (∀ v, st'.color v = some 1 ↔ st.color v = some 1) ∧
        (∀ v, st'.color v = some 0 → st.color v = some 0) ∧
        DomInv keysL st'.color ∧
        Wcount keysL st'.color ≤ Wcount keysL st.color := by
  intro vs
  induction vs with
  | nil =>
    intro u st _ _ _ _ hdom _
    exact ⟨st, rfl, rfl, rfl, fun _ => Iff.rfl, fun _ h => h, hdom, Nat.le_refl _⟩
  | cons v vs ih =>
    intro u st hadj hlast hchain hgray hdom hW
    by_cases hg : st.color v = some 1
    · exfalso
      have hvp : v ∈ st.path := (hgray v).mp hg
      have hrtg : Relation.ReflTransGen (AdjRel adj) v u :=
        chain_to_last st.path v u hchain hvp hlast
      have huv : AdjRel adj u v := hadj v (List.mem_cons_self _ _)
      have htg : Relation.TransGen (AdjRel adj) v v :=
        Relation.TransGen.tail' hrtg huv
      exact hA v (Relation.TransGen.mono hsub htg)
    · by_cases hw : st.color v = some 0
      · have hchv : List.Chain' (AdjRel adj) (st.path ++ [v]) := by
          rw [List.chain'_append]
          refine ⟨hchain, List.chain'_singleton v, ?_⟩
          intro x hx y hy
          have hxu : x = u := by
            rw [hlast] at hx
            exact (Option.mem_some_iff.mp hx).symm
          have hyv : v = y := by simpa using hy
          rw [hxu, ← hyv]
          exact hadj v (List.mem_cons_self _ _)
        obtain ⟨st1, hvis, hcy1, hp1, hg1, hwm1, hdom1, hW1⟩ :=
          hvisit v st hw hdom hchv hgray hW
        obtain ⟨st2, hrun, hcy2, hp2, hg2, hwm2, hdom2, hW2⟩ :=
          ih u st1 (fun w hwm => hadj w (List.mem_cons_of_mem _ hwm))
            (by rw [hp1]; exact hlast) (by rw [hp1]; exact hchain)
            (fun w => by
              show st1.color w = some 1 ↔ w ∈ st1.path
              rw [hp1]
              exact (hg1 w).trans (hgray w))
            hdom1 (Nat.le_trans (Nat.le_of_lt hW1) hW)
        refine ⟨st2, ?_, hcy2.trans hcy1, hp2.trans hp1,
          fun w => (hg2 w).trans (hg1 w),
          fun w hww => hwm1 w (hwm2 w hww), hdom2,
          Nat.le_trans hW2 (Nat.le_of_lt hW1)⟩
        simp only [dfsSuccs]
        rw [if_neg hg, if_pos hw, hvis]
        exact hrun
      · obtain ⟨st2, hrun, hcy2, hp2, hg2, hwm2, hdom2, hW2⟩ :=
          ih u st (fun w hwm => hadj w (List.mem_cons_of_mem _ hwm))
            hlast hchain hgray hdom hW
        refine ⟨st2, ?_, hcy2, hp2, hg2, hwm2, hdom2, hW2⟩
        simp only [dfsSuccs]
        rw [if_neg hg, if_neg hw]
        exact hrun

/-- Under acyclicity `dfs(u)` on a white vertex returns normally with no
new cycle, the path restored, grays restored and strictly fewer whites. -/
theorem dfsVisit_spec
    (adj : List (String × List String)) (nameMap : List (String × String))
    (keysL : List String) (edges : List GEdge)
    (hA : Acyclic edges)
    (hsub : ∀ a b, AdjRel adj a b → EdgeStep edges a b) :
    ∀ (fuel : Nat) (u : String) (st : DfsSt),
      st.color u = some 0 → DomInv keysL st.color →
      List.Chain' (AdjRel adj) (st.path ++ [u]) → GrayInv st →
      Wcount keysL st.color ≤ fuel →
      ∃ st', dfsVisit adj nameMap fuel u st = .ok st' ∧
        st'.cycles = st.cycles ∧ st'.path = st.path ∧
        (∀ v, st'.color v = some 1 ↔ st.color v = some 1) ∧
        (∀ v, st'.color v = some 0 → st.color v = some 0) ∧
        DomInv keysL st'.color ∧
        Wcount keysL st'.color < Wcount keysL st.color := by
  intro fuel
  induction fuel with
  | zero =>
    intro u st hw hdom _ _ hW
    exfalso
    have hu : u ∈ keysL := hdom u (by simp [hw])
    have hpos : 0 < Wcount keysL st.color :=
      List.countP_pos_iff.mpr ⟨u, hu, by simp [hw]⟩
    omega
  | succ fuel ih =>
    intro u st hw hdom hchain hgray hW
    have hu : u ∈ keysL := hdom u (by simp [hw])
    have hW1 : Wcount keysL (setColor st.color u 1) < Wcount keysL st.color :=
      wcount_setColor_lt keysL st.color u 1 (by omega) hu hw
    have hdom1 : DomInv keysL (setColor st.color u 1) := by
      intro v hv
      by_cases hvu : v = u
      · subst hvu
        exact hu
      · apply hdom v
        simpa [setColor, hvu] using hv
    have hgray1 : GrayInv
        { color := setColor st.color u 1,
          path := st.path ++ [u], cycles := st.cycles } := by
      intro v
      show setColor st.color u 1 v = some 1 ↔ v ∈ st.path ++ [u]
      by_cases hvu : v = u
      · subst hvu
        simp [setColor]
      · rw [setColor, if_neg hvu]
        rw [List.mem_append]
        simp only [List.mem_singleton]
        constructor
        · intro h
          exact Or.inl ((hgray v).mp h)
        · intro h
          rcases h with h | h
          · exact (hgray v).mpr h
          · exact absurd h hvu
    obtain ⟨st2, hrun, hcy2, hp2, hg2, hwm2, hdom2, hW2⟩ :=
      dfsSuccs_spec adj nameMap keysL edges hA hsub
        (fun v s => dfsVisit adj nameMap fuel v s) fuel
        (fun w stw hw' hdom' hch' hgr' hW' => ih w stw hw' hdom' hch' hgr' hW')
        ((alookup adj u).getD []) u
        (DfsSt.mk (setColor st.color u 1) (st.path ++ [u]) st.cycles)
        (fun v hv => hv) (List.getLast?_concat _) hchain hgray1 hdom1
        (by show Wcount keysL (setColor st.color u 1) ≤ fuel; omega)
    have hstep : dfsVisit adj nameMap (fuel + 1) u st =
        match dfsSuccs nameMap (fun v s => dfsVisit adj nameMap fuel v s)
            ((alookup adj u).getD [])
            (DfsSt.mk (setColor st.color u 1) (st.path ++ [u]) st.cycles) with
        | .error e => .error e
        | .ok st2 =>
          .ok (DfsSt.mk (setColor st2.color u 2) st2.path.dropLast st2.cycles) := rfl
    refine ⟨DfsSt.mk (setColor st2.color u 2) st2.path.dropLast st2.cycles,
      ?_, hcy2, ?_, ?_, ?_, ?_, ?_⟩
    · rw [hstep, hrun]
    · show st2.path.dropLast = st.path
      rw [hp2]
      exact List.dropLast_concat
    · intro v
      show setColor st2.color u 2 v = some 1 ↔ st.color v = some 1
      by_cases hvu : v = u
      · subst hvu
        rw [setColor, if_pos rfl]
        constructor
        · intro h
          cases h
        · intro h
          rw [hw] at h
          cases h
      · rw [setColor, if_neg hvu]
        have := (hg2 v).trans (by
          show setColor st.color u 1 v = some 1 ↔ st.color v = some 1
          rw [setColor, if_neg hvu])
        exact this
    · intro v hv
      have hv' : (if v = u then some 2 else st2.color v) = some 0 := hv
      by_cases hvu : v = u
      · rw [if_pos hvu] at hv'
        cases hv'
      · rw [if_neg hvu] at hv'
        have h2 := hwm2 v hv'
        have h2' : (if v = u then some 1 else st.color v) = some 0 := h2
        rwa [if_neg hvu] at h2'
    · intro v hv
      by_cases hvu : v = u
      · subst hvu
        exact hu
      · apply hdom2 v
        have hv' : (if v = u then some 2 else st2.color v) ≠ none := hv
        rwa [if_neg hvu] at hv'
    · have hmono : Wcount keysL (setColor st2.color u 2) ≤
          Wcount keysL st2.color := by
        apply wcount_mono
        intro v hv
        have hv' : (if v = u then some 2 else st2.color v) = some 0 := hv
        by_cases hvu : v = u
        · rw [if_pos hvu] at hv'
          cases hv'
        · rwa [if_neg hvu] at hv'
      have hbridge : Wcount keysL
          (DfsSt.mk (setColor st.color u 1) (st.path ++ [u]) st.cycles).color =
          Wcount keysL (setColor st.color u 1) := rfl
      rw [hbridge] at hW2
      show Wcount keysL (setColor st2.color u 2) < Wcount keysL st.color
      omega

/-- Under acyclicity the root loop returns normally without adding cycles. -/
theorem dfsRoots_spec
    (adj : List (String × List String)) (nameMap : List (String × String))
    (keysL : List String) (edges : List GEdge)
    (hA : Acyclic edges)
    (hsub : ∀ a b, AdjRel adj a b → EdgeStep edges a b) (fuel : Nat) :
    ∀ (ks : List String) (st : DfsSt),
      st.path = [] → GrayInv st → DomInv keysL st.color →
      Wcount keysL st.color ≤ fuel →
      ∃ st', dfsRoots adj nameMap fuel ks st = .ok st' ∧
        st'.cycles = st.cycles := by
  intro ks
  induction ks with
  | nil => intro st _ _ _ _; exact ⟨st, rfl, rfl⟩
  | cons k ks ih =>
    intro st hpath hgray hdom hW
    by_cases hw : st.color k = some 0
    · obtain ⟨st1, hrun, hcy, hp1, hg1, _, hdom1, hW1⟩ :=
        dfsVisit_spec adj nameMap keysL edges hA hsub fuel k st hw hdom
          (by rw [hpath]; exact List.chain'_singleton k) hgray hW
      obtain ⟨st2, hrun2, hcy2⟩ := ih st1 (hp1.trans hpath)
        (fun v => by
          show st1.color v = some 1 ↔ v ∈ st1.path
          rw [hp1]
          exact (hg1 v).trans (hgray v))
        hdom1 (Nat.le_trans (Nat.le_of_lt hW1) hW)
      refine ⟨st2, ?_, hcy2.trans hcy⟩
      simp only [dfsRoots]
      rw [if_pos hw, hrun]
      exact hrun2
    · obtain ⟨st2, hrun2, hcy2⟩ := ih st hpath hgray hdom hW
      refine ⟨st2, ?_, hcy2⟩
      simp only [dfsRoots]
      rw [if_neg hw]
      exact hrun2

/-- C7: on nodes {A,B,C} with edges A→B, B→C, C→A `detect_cycles` reports
exactly one cycle, ["A","B","C"], covering all three names; and on every
acyclic edge set it returns the empty list, with the route's derived
`has_cycles` flag false. -/
theorem detect_cycles_triangle_and_acyclic :
    detect_cycles
        [⟨"A", "A", "service", none, "cv"⟩, ⟨"B", "B", "service", none, "cv"⟩,
          ⟨"C", "C", "service", none, "cv"⟩]
        [⟨"A", "B", "dep", some 1⟩, ⟨"B", "C", "dep", some 1⟩,
          ⟨"C", "A", "dep", some 1⟩] = .ok [["A", "B", "C"]] ∧
    ∀ (nodes : List GNode) (edges : List GEdge), Acyclic edges →
      detect_cycles nodes edges = .ok [] ∧
      get_cycles nodes edges = .ok ([], false) := by
  constructor
  · rfl
  · intro nodes edges hA
    have hdet : detect_cycles nodes edges = .ok [] := by
      obtain ⟨st', hrun, hcy⟩ :=
        dfsRoots_spec (buildAdj nodes edges) (buildNameMap nodes)
          (dkeys (buildAdj nodes edges)) edges hA
          (adjRel_edgeStep nodes edges)
          ((buildAdj nodes edges).length + 1) (dkeys (buildAdj nodes edges))
          (DfsSt.mk
            (fun v =>
              if (dkeys (buildAdj nodes edges)).contains v then some 0 else none)
            [] [])
          rfl
          (by
            intro v
            show (if (dkeys (buildAdj nodes edges)).contains v then some 0
              else none) = some 1 ↔ v ∈ ([] : List String)
            constructor
            · intro h
              by_cases hc : (dkeys (buildAdj nodes edges)).contains v = true
              · rw [if_pos hc] at h
                simp at h
              · rw [if_neg hc] at h
                cases h
            · intro h
              exact absurd h (List.not_mem_nil v))
          (by
            intro v hv
            by_cases hc : (dkeys (buildAdj nodes edges)).contains v = true
            · simpa using hc
            · exfalso
              apply hv
              show (if (dkeys (buildAdj nodes edges)).contains v then some 0
                else none) = none
              rw [if_neg hc])
          (by
            show Wcount (dkeys (buildAdj nodes edges))
              (fun v =>
                if (dkeys (buildAdj nodes edges)).contains v then some 0
                else none) ≤ (buildAdj nodes edges).length + 1
            have h1 := List.countP_le_length
              (l := dkeys (buildAdj nodes edges))
              (fun k =>
                decide ((if (dkeys (buildAdj nodes edges)).contains k then
                  some 0 else none) = some 0))
            have h2 : (dkeys (buildAdj nodes edges)).length =
                (buildAdj nodes edges).length := List.length_map _ _
            have h3 : Wcount (dkeys (buildAdj nodes edges))
                (fun v => if (dkeys (buildAdj nodes edges)).contains v then
                  some 0 else none) =
                (dkeys (buildAdj nodes edges)).countP
                  (fun k =>
                    decide ((if (dkeys (buildAdj nodes edges)).contains k then
                      some 0 else none) = some 0)) := rfl
            omega)
      have hstep : detect_cycles nodes edges =
          match dfsRoots (buildAdj nodes edges) (buildNameMap nodes)
              ((buildAdj nodes edges).length + 1) (dkeys (buildAdj nodes edges))
              (DfsSt.mk
                (fun v =>
                  if (dkeys (buildAdj nodes edges)).contains v then some 0
                  else none)
                [] []) with
          | .error e => .error e
          | .ok st => .ok st.cycles := rfl
      rw [hstep, hrun]
      show Except.ok st'.cycles = Except.ok []
      rw [hcy]
    refine ⟨hdet, ?_⟩
    have hg : get_cycles nodes edges =
        (detect_cycles nodes edges).map (fun cs => (cs, decide (cs.length > 0))) :=
      rfl
    rw [hg, hdet]
    rfl

/-- Witness for C7: the single-edge graph A→B is acyclic, and on it
`detect_cycles` returns the empty cycle list. -/
theorem detect_cycles_triangle_and_acyclic_witness :
    Acyclic [⟨"A", "B", "dep", some 1⟩] ∧
    detect_cycles
      [⟨"A", "A", "service", none, "cv"⟩, ⟨"B", "B", "service", none, "cv"⟩]
      [⟨"A", "B", "dep", some 1⟩] = .ok [] := by
  have hstep : ∀ a b : String,
      EdgeStep [(⟨"A", "B", "dep", some 1⟩ : GEdge)] a b →
        a = "A" ∧ b = "B" := by
    intro a b h
    obtain ⟨e, he, hs, ht⟩ := h
    have he' : e = ⟨"A", "B", "dep", some 1⟩ := by simpa using he
    subst he'
    exact ⟨hs.symm, ht.symm⟩
  have hA : Acyclic [(⟨"A", "B", "dep", some 1⟩ : GEdge)] := by
    intro v htg
    have hend : ∀ a b : String,
        Relation.TransGen (EdgeStep [(⟨"A", "B", "dep", some 1⟩ : GEdge)]) a b →
          b = "B" := by
      intro a b h
      induction h with
      | single h1 => exact (hstep _ _ h1).2
      | tail _ h1 _ => exact (hstep _ _ h1).2
    cases htg with
    | single h1 =>
      obtain ⟨ha, hb⟩ := hstep _ _ h1
      rw [ha] at hb
      exact absurd hb (by decide)
    | tail h1 h2 =>
      have hb := hend _ _ h1
      have ha := (hstep _ _ h2).1
      rw [hb] at ha
      exact absurd ha (by decide)
  exact ⟨hA, (detect_cycles_triangle_and_acyclic.2 _ _ hA).1⟩
